import Mathlib

/-!
Verification development for the `simple-registry` Go library: a client-side
service registry with a hierarchical, locally cached storage layer backed by a
watchable remote key-value store (etcd).

Shallow embedding conventions used throughout this file:

* Go strings are modelled as `List Char` (`Str` below); the handful of
  functions from Go's `strings` package that the code uses (`Split`,
  `HasPrefix`, `HasSuffix`, `TrimPrefix`, `ReplaceAll` with an empty
  replacement) are re-implemented structurally so that every concrete
  computation reduces inside the kernel.
* The remote `Database` is abstract: code paths that perform a remote call
  take the call's outcome (success / error, scan results) as an explicit
  parameter, exactly at the program point where the Go code performs the call.
* `sync.Map` values are modelled as association lists with `Store` replacing
  the first binding of a key (or appending a fresh one), `Delete` dropping it,
  and `Range` iterating in list order (a deterministic stand-in for the
  unspecified iteration order).
* A Go nil-pointer dereference (panic) is modelled by an `Option`-valued
  result whose `none` case marks the panic.
-/

/-! ### Go strings as `List Char` -/

/-- Go strings, modelled as lists of characters. -/
abbrev Str := List Char

/-- `strings.HasPrefix s p` (argument order: prefix first here). -/
def goHasPrefix (p s : Str) : Bool := p.isPrefixOf s

/-- `strings.HasSuffix s suf` (argument order: suffix first here). -/
def goHasSuffix (suf s : Str) : Bool := suf.isSuffixOf s

/-- `strings.TrimPrefix(s, p)`. -/
def goTrimPrefix (p s : Str) : Str :=
  if p.isPrefixOf s then s.drop p.length else s

/-- Fuel-indexed worker for `goSplit`.  Each step consumes at least one
character of the subject string, so fuel `s.length + 1` always suffices and
the fuel-exhaustion branch is unreachable; fuel only serves to make the
recursion structural (hence kernel-reducible). -/
def goSplitF (s0 : Char) (srest : Str) : Nat → Str → Str → List Str
  | 0, _, acc => [acc.reverse]
  | _ + 1, [], acc => [acc.reverse]
  | fuel + 1, c :: rest, acc =>
    if c = s0 ∧ srest.isPrefixOf rest then
      acc.reverse :: goSplitF s0 srest fuel (rest.drop srest.length) []
    else
      goSplitF s0 srest fuel rest (c :: acc)

/-- `strings.Split(s, sep)` for a non-empty separator: splits `s` around each
non-overlapping occurrence of `sep`.  (The repository only ever splits on the
configured storage separator, which defaults to `/`; Go's special behaviour
for an empty separator is not modelled and `[s]` is returned instead.) -/
def goSplit (sep s : Str) : List Str :=
  match sep with
  | [] => [s]
  | s0 :: srest => goSplitF s0 srest (s.length + 1) s []

/-- Fuel-indexed worker for `goRemoveAll`; fuel as in `goSplitF`. -/
def goRemoveAllF (s0 : Char) (srest : Str) : Nat → Str → Str
  | 0, s => s
  | _ + 1, [] => []
  | fuel + 1, c :: rest =>
    if c = s0 ∧ srest.isPrefixOf rest then
      goRemoveAllF s0 srest fuel (rest.drop srest.length)
    else
      c :: goRemoveAllF s0 srest fuel rest

/-- `strings.ReplaceAll(s, sep, "")`: removes every non-overlapping occurrence
of `sep` from `s` (the only use of `ReplaceAll` in the repository).  As with
`goSplit`, the empty-separator case is not modelled. -/
def goRemoveAll (sep s : Str) : Str :=
  match sep with
  | [] => s
  | s0 :: srest => goRemoveAllF s0 srest (s.length + 1) s

/-! ### Shared data model: KV pairs -/

/-- `KV` from the data model: a key together with its (opaque, `g.Var`-wrapped)
value.  The payload is modelled as a string, which is how it travels to and
from the remote store. -/
structure KV where
  Key : Str
  Value : Str
deriving DecidableEq

/-! ### `storage` (the uncached storage layer) -/

/-- The string literal `"storage"` that `buildStorageKey` writes between the
configured prefix and the storage name. -/
def sStorageWord : Str := "storage".data

/-- `StorageConfig`: the configurable path separator. -/
structure StorageConfig where
  Separator : Str
deriving DecidableEq

/-- The `storage` struct.  `pfx` is the Go field `prefix` (a Lean keyword).
The embedded `Database` is left abstract; remote-call outcomes are passed
explicitly to the operations that need them. -/
structure storage where
  pfx : Str
  cfg : StorageConfig
  name : Str
deriving DecidableEq

/-- `newStorage`: the storage name has every occurrence of the separator
stripped out before being stored. -/
def newStorage (pfx name : Str) (cfg : StorageConfig) : storage :=
  { pfx := pfx, cfg := cfg, name := goRemoveAll cfg.Separator name }

/-- `storage.buildStorageKey(key...)`: `<prefix> ++ "storage" ++ <sep> ++
<name> ++ <sep>`, followed by `key[0]` when a non-empty first variadic
argument is given. -/
def storage.buildStorageKey (s : storage) (key : List Str) : Str :=
  s.pfx ++ sStorageWord ++ s.cfg.Separator ++ s.name ++ s.cfg.Separator ++
    (match key with
     | [] => []
     | k :: _ => if k = [] then [] else k)

/-- The key that `storage.Set` actually writes to the remote database: the
caller's key is passed through unchanged whenever it already starts with the
storage's (separator-stripped) name, and is routed through `buildStorageKey`
otherwise. -/
def storage.setWrittenKey (s : storage) (key : Str) : Str :=
  if goHasPrefix s.name key then key else s.buildStorageKey [key]

/-! ### The storage trie (`storageNode`) -/

mutual
/-- `storageNode`: a node of the path-segmented cache tree.  `next` is the
node's `sync.Map` of children (child segment name to child node), `values` the
list of `KV` entries living at exactly this node. -/
inductive storageNode where
  | mk (name : Str) (next : NodeMap) (values : List KV)

/-- The children map of a `storageNode` (Go: `sync.Map` keyed by segment
name), modelled as an association list in insertion order. -/
inductive NodeMap where
  | nil
  | cons (key : Str) (child : storageNode) (rest : NodeMap)
end

/-- The node's path-segment name. -/
def storageNode.name : storageNode → Str
  | .mk n _ _ => n

/-- The node's children map. -/
def storageNode.next : storageNode → NodeMap
  | .mk _ m _ => m

/-- The node's local value list. -/
def storageNode.values : storageNode → List KV
  | .mk _ _ v => v

/-- `sync.Map.Load`: the first binding of `k`, if any. -/
def NodeMap.load : NodeMap → Str → Option storageNode
  | .nil, _ => none
  | .cons key c rest, k => if key = k then some c else rest.load k

/-- `sync.Map.Store`: replace the first binding of `k`, or append one. -/
def NodeMap.store : NodeMap → Str → storageNode → NodeMap
  | .nil, k, c => .cons k c .nil
  | .cons key c0 rest, k, c =>
    if key = k then .cons key c rest else .cons key c0 (rest.store k c)

/-- `sync.Map.Delete`: drop the first binding of `k`. -/
def NodeMap.delete : NodeMap → Str → NodeMap
  | .nil, _ => .nil
  | .cons key c rest, k => if key = k then rest else .cons key c (rest.delete k)

/-- All bindings of the children map, in iteration order. -/
def NodeMap.toList : NodeMap → List (Str × storageNode)
  | .nil => []
  | .cons key c rest => (key, c) :: rest.toList

/-- Apply `f` to the child bound to `k` (no change if `k` is unbound).  This
models the Go code mutating a child node through the pointer obtained from
`Load`. -/
def NodeMap.mapAt (m : NodeMap) (k : Str) (f : storageNode → storageNode) : NodeMap :=
  match m with
  | .nil => .nil
  | .cons key c rest =>
    if key = k then .cons key (f c) rest else .cons key c (rest.mapAt k f)

/-- `storageNode.updateOrInsertValue` on the raw value list: replace the value
of the first entry whose key matches, else append a fresh entry. -/
def updateOrInsertValues (vs : List KV) (key value : Str) : List KV :=
  match vs with
  | [] => [⟨key, value⟩]
  | kv :: rest =>
    if kv.Key = key then ⟨kv.Key, value⟩ :: rest
    else kv :: updateOrInsertValues rest key value

/-- `storageNode.updateOrInsertValue`. -/
def storageNode.updateOrInsertValue (n : storageNode) (key value : Str) : storageNode :=
  .mk n.name n.next (updateOrInsertValues n.values key value)

/-- `storageNode.removeValue`: drops the value entries whose key matches.  The
Go loop removes matching entries in place while ranging over the list; on a
list whose keys are distinct (the invariant maintained by
`updateOrInsertValue` and by cache builds from a prefix scan, whose keys are
unique) it removes exactly the single matching entry, which is what `filter`
does. -/
def storageNode.removeValue (n : storageNode) (key : Str) : storageNode :=
  .mk n.name n.next (n.values.filter (fun kv => kv.Key ≠ key))

/-- `storageNode.appendValues` (single-value form, as used by `buildCache`). -/
def storageNode.appendValue (n : storageNode) (kv : KV) : storageNode :=
  .mk n.name n.next (n.values ++ [kv])

mutual
/-- The recursive `dfs` closure of `cachedStorage.Get`: collect this node's
values, then recurse into every child in iteration order. -/
def dfsCollect : storageNode → List KV
  | .mk _ next values => values ++ dfsCollectMap next
/-- `dfs` iterated over a children map via `Range`. -/
def dfsCollectMap : NodeMap → List KV
  | .nil => []
  | .cons _ c rest => dfsCollect c ++ dfsCollectMap rest
end

/-- The descent loop of `cachedStorage.Get`: follow one child link per path
segment, failing as soon as a segment has no corresponding child. -/
def resolve : storageNode → List Str → Option storageNode
  | n, [] => some n
  | n, po :: rest =>
    match n.next.load po with
    | none => none
    | some c => resolve c rest

mutual
/-- Erase every value list in the tree, keeping names and the child structure:
two trees with equal `stripValues` images have identical shape. -/
def stripValues : storageNode → storageNode
  | .mk n next _ => .mk n (stripValuesMap next) []
/-- `stripValues` on a children map. -/
def stripValuesMap : NodeMap → NodeMap
  | .nil => .nil
  | .cons k c rest => .cons k (stripValues c) (stripValuesMap rest)
end

/-! ### `cachedStorage` operations -/

/-- The walk of `cachedStorage.setCache` over the split path: skip empty
segments, load or create each child, and at the end `updateOrInsertValue` the
(full) key into the terminal node. -/
def setCachePath : storageNode → List Str → Str → Str → storageNode
  | node, [], key, value => node.updateOrInsertValue key value
  | node, po :: rest, key, value =>
    if po = [] then setCachePath node rest key value
    else
      match node.next.load po with
      | some child => .mk node.name (node.next.store po (setCachePath child rest key value)) node.values
      | none => .mk node.name (node.next.store po (setCachePath (.mk po .nil []) rest key value)) node.values

/-- `cachedStorage.setCache(key, value)` on a (non-nil) root: the path is the
key with the storage's root prefix trimmed, split on the separator. -/
def cachedStorage.setCache (c : storage) (t : storageNode) (key value : Str) : storageNode :=
  setCachePath t (goSplit c.cfg.Separator (goTrimPrefix (c.buildStorageKey []) key)) key value

/-- The walk of `cachedStorage.remove` after the path has been split:
`mid` is `pos[0 .. len-2]`, `last` is `pos[len-1]`, `trailing` records whether
the original key ended with the separator, and `rmKey` is
`buildStorageKey(key)`, the key passed to `removeValue`.  A missing
intermediate segment aborts the walk with the tree unchanged; at the end, if
the last segment names an existing child, that child subtree is dropped when
`trailing`, else the child's matching value entry is removed; if the last
segment names no child, the matching value entry of the current node is
removed. -/
def removeWalk : storageNode → List Str → Str → Bool → Str → storageNode
  | node, [], last, trailing, rmKey =>
    match node.next.load last with
    | some _ =>
      if trailing then .mk node.name (node.next.delete last) node.values
      else .mk node.name (node.next.mapAt last (fun c => c.removeValue rmKey)) node.values
    | none => node.removeValue rmKey
  | node, po :: rest, last, trailing, rmKey =>
    if po = [] then removeWalk node rest last trailing rmKey
    else
      match node.next.load po with
      | some _ => .mk node.name (node.next.mapAt po (fun c => removeWalk c rest last trailing rmKey)) node.values
      | none => node

/-- `cachedStorage.remove(key)` on a (non-nil) root. -/
def cachedStorage.remove (c : storage) (t : storageNode) (key : Str) : storageNode :=
  let pos := goSplit c.cfg.Separator (goTrimPrefix (c.buildStorageKey []) key)
  removeWalk t pos.dropLast (pos.getLastD [])
    (goHasSuffix c.cfg.Separator key) (c.buildStorageKey [key])

/-- The per-key walk of `cachedStorage.buildCache`: like `setCachePath` but
empty segments are NOT skipped and the value is appended (`appendValues`)
rather than upserted. -/
def buildInsertPath : storageNode → List Str → KV → storageNode
  | node, [], kv => node.appendValue kv
  | node, po :: rest, kv =>
    match node.next.load po with
    | some child => .mk node.name (node.next.store po (buildInsertPath child rest kv)) node.values
    | none => .mk node.name (node.next.store po (buildInsertPath (.mk po .nil []) rest kv)) node.values

/-- `cachedStorage.buildCache` applied to the result of a successful prefix
scan: a fresh root named by the (separator-stripped) storage name, populated
key by key; scan entries that do not carry the storage's root prefix are
skipped. -/
def cachedStorage.buildCache (c : storage) (kvs : List KV) : storageNode :=
  kvs.foldl
    (fun root kv =>
      if goHasPrefix (c.buildStorageKey []) kv.Key then
        buildInsertPath root
          (goSplit c.cfg.Separator (goTrimPrefix (c.buildStorageKey []) kv.Key)) kv
      else root)
    (.mk (goRemoveAll c.cfg.Separator c.name) .nil [])

/-- A database error surfaced by the abstract `Database`. -/
structure DbErr where
  code : Nat
deriving DecidableEq

/-- `newCachedStorage`'s root after construction: `buildCache` leaves the root
nil (`none`) when the initial prefix scan fails, and installs the freshly
built tree otherwise. -/
def newCachedStorageRoot (c : storage) (scan : Except DbErr (List KV)) : Option storageNode :=
  match scan with
  | .error _ => none
  | .ok kvs => some (cachedStorage.buildCache c kvs)

/-- `cachedStorage.Get`'s error (`ErrStorageNotFound`). -/
inductive GetErr where
  | ErrStorageNotFound
deriving DecidableEq

/-- `cachedStorage.Get(key...)` as executed against the local tree.  The outer
`Option` models termination: `none` is the nil-pointer dereference that
happens when the root is nil and a non-empty key makes the descent loop read
`node.next` off the nil root; `some` carries the function's ordinary result.
With no key (or an empty key) the recursive `dfs` nil-checks its argument, so
a nil root safely yields an empty result. -/
def cachedStorage.Get (c : storage) (root : Option storageNode) (key : Option Str) :
    Option (Except GetErr (List KV)) :=
  let k := key.getD []
  if k = [] then
    some (.ok (match root with | none => [] | some r => dfsCollect r))
  else
    match root with
    | none => none
    | some r =>
      match resolve r (goSplit c.cfg.Separator k) with
      | none => some (.error .ErrStorageNotFound)
      | some n => some (.ok (dfsCollect n))

/-- `cachedStorage.Set`: write through to the remote store (outcome `dbRes`),
and only on success update the local tree via `setCache(buildStorageKey(key),
value)`.  Returns the new tree and the error returned to the caller. -/
def cachedStorage.Set (c : storage) (t : storageNode) (dbRes : Option DbErr)
    (key value : Str) : storageNode × Option DbErr :=
  match dbRes with
  | some e => (t, some e)
  | none => (cachedStorage.setCache c t (c.buildStorageKey [key]) value, none)

/-- `cachedStorage.Delete`: write the delete through to the remote store
(outcome `dbRes`), and only on success prune the local tree via
`remove(key)` - note `remove` receives the caller's raw key. -/
def cachedStorage.Delete (c : storage) (t : storageNode) (dbRes : Option DbErr)
    (key : Str) : storageNode × Option DbErr :=
  match dbRes with
  | some e => (t, some e)
  | none => (cachedStorage.remove c t key, none)

/-- `EventType` of instance / storage change events. -/
inductive EventType where
  | create
  | update
  | delete
deriving DecidableEq

/-- `cachedStorage.handleEvent`: the watch-reconciliation step.  The relative
key is first mapped through `buildStorageKey`; create/update then run
`setCache` on it, delete runs `remove` on it. -/
def cachedStorage.handleEvent (c : storage) (t : storageNode) (e : EventType)
    (key value : Str) : storageNode :=
  let key := c.buildStorageKey [key]
  match e with
  | .create | .update => cachedStorage.setCache c t key value
  | .delete => cachedStorage.remove c t key

/-! ### Instance / Service data model -/

/-- The identity separator literal `"_"` of `Instance.Identity`. -/
def sUnderscore : Str := "_".data

/-- The literal `"@"` of `Instance.Identity`. -/
def sAt : Str := "@".data

/-- `Instance`: one running process registered under a service name.  `Meta`
(`map[string]interface{}`) is modelled as an association list of string
payloads. -/
structure Instance where
  Id : Str
  Host : Str
  HostName : Str
  Port : Nat
  ServiceName : Str
  Meta : List (Str × Str)
deriving DecidableEq

/-- `Instance.Identity()` with the default separator `"_"` (the only form the
repository uses): `<service_name>_<id>@<host>`. -/
def Instance.Identity (i : Instance) : Str :=
  i.ServiceName ++ sUnderscore ++ i.Id ++ sAt ++ i.Host

/-- `Instance.clone`: a defensive copy; as a value it equals the receiver. -/
def Instance.clone (i : Instance) : Instance :=
  { Id := i.Id, Host := i.Host, HostName := i.HostName, Port := i.Port,
    ServiceName := i.ServiceName, Meta := i.Meta }

/-- `Instance.clone` as invoked on a possibly-nil `*Instance` receiver.  The
method body's first statement ranges over `i.Meta`, which dereferences the
receiver, so a nil receiver faults: the outer `none` models that nil-pointer
dereference panic; `some` carries the returned pointer. -/
def Instance.cloneOnPtr : Option Instance → Option (Option Instance)
  | none => none
  | some i => some (some i.clone)

/-- `Service`: the (lock-guarded) list of instances sharing a service name. -/
structure Service where
  Name : Str
  instances : List Instance
deriving DecidableEq

/-- Worker for `Service.remove`: remove the first instance whose identity
matches and return it. -/
def removeInstanceList (id : Str) : List Instance → Option Instance × List Instance
  | [] => (none, [])
  | i :: rest =>
    if i.Identity = id then (some i, rest)
    else
      let (r, rest') := removeInstanceList id rest
      (r, i :: rest')

/-- `Service.remove(id)` (named `Remove` in the shared model file): scan the
instance list for the first instance whose `Identity()` equals `id`, remove it
and return it; return nil when no instance matches. -/
def Service.remove (s : Service) (id : Str) : Option Instance × Service :=
  let (r, rest) := removeInstanceList id s.instances
  (r, { s with instances := rest })

/-- `Service.append(instance)` (named `Append` in the shared model file). -/
def Service.append (s : Service) (i : Instance) : Service :=
  { s with instances := s.instances ++ [i] }

/-- Modelled from the spec: `Service.upsert`, whose body is not among the
source files (only its call sites in the registry are).  Per the spec's watch
reconciliation step, it upserts by identity: replace the instance whose
identity matches if one is present, else append. -/
def Service.upsert (s : Service) (ins : Instance) : Service :=
  if s.instances.any (fun i => i.Identity == ins.Identity) then
    { s with instances := s.instances.map (fun i => if i.Identity = ins.Identity then ins else i) }
  else
    { s with instances := s.instances ++ [ins] }

/-! ### The registry -/

/-- The registry's mutable state: the process-wide `currentInstance` and the
`sync.Map` from service name to `*Service`, modelled as an association list in
insertion order. -/
structure RegistryState where
  currentInstance : Option Instance
  cache : List (Str × Service)
deriving DecidableEq

/-- `sync.Map.Load` on the service cache. -/
def svcLoad : List (Str × Service) → Str → Option Service
  | [], _ => none
  | (key, s) :: rest, k => if key = k then some s else svcLoad rest k

/-- `sync.Map.Store` on the service cache. -/
def svcStore : List (Str × Service) → Str → Service → List (Str × Service)
  | [], k, s => [(k, s)]
  | (key, s0) :: rest, k, s =>
    if key = k then (key, s) :: rest else (key, s0) :: svcStore rest k s

/-- Errors returned by `registry.register`: `ErrAlreadyRegistered`, or a
pass-through database error. -/
inductive RegErr where
  | alreadyRegistered
  | db (e : DbErr)
deriving DecidableEq

/-- `registry.GetService`: a plain cache lookup (`ErrServiceNotFound` when the
name was never observed, modelled by `none`). -/
def registry.GetService (st : RegistryState) (serviceName : Str) : Option Service :=
  svcLoad st.cache serviceName

/-- `registry.GetServices`: a point-in-time snapshot of the whole service
cache. -/
def registry.GetServices (st : RegistryState) : List (Str × Service) :=
  st.cache

/-- `registry.getOrCreateService`: look the service up; when absent
(`ErrServiceNotFound`) store a zero-value `Service` under the name and return
it.  No other outcome is possible, so the Go error result is always nil. -/
def registry.getOrCreateService (st : RegistryState) (serviceName : Str) :
    Service × RegistryState :=
  match svcLoad st.cache serviceName with
  | some svc => (svc, st)
  | none =>
    let svc : Service := { Name := [], instances := [] }
    (svc, { st with cache := svcStore st.cache serviceName svc })

/-- One merge step of `registry.buildCache`: a deserialized instance is
appended to a freshly stored service when its name is new, and upserted into
the existing service otherwise. -/
def registry.buildCacheStep (cache : List (Str × Service)) (ins : Instance) :
    List (Str × Service) :=
  match svcLoad cache ins.ServiceName with
  | none => svcStore cache ins.ServiceName (Service.append { Name := [], instances := [] } ins)
  | some svc => svcStore cache ins.ServiceName (svc.upsert ins)

/-- The merge loop of `registry.buildCache` over the scan response; a `none`
entry is a `kv.Value.Struct` deserialization failure, which makes the Go
function return early, keeping the merges done so far. -/
def registry.buildCacheLoop : List (Str × Service) → List (Option Instance) →
    List (Str × Service)
  | cache, [] => cache
  | cache, none :: _ => cache
  | cache, some ins :: rest => registry.buildCacheLoop (registry.buildCacheStep cache ins) rest

/-- `registry.buildCache`: on a failed prefix scan the cache is left exactly
as it was (the error is only logged); otherwise the response is merged entry
by entry into the existing cache. -/
def registry.buildCache (cache : List (Str × Service))
    (scan : Except DbErr (List (Option Instance))) : List (Str × Service) :=
  match scan with
  | .error _ => cache
  | .ok entries => registry.buildCacheLoop cache entries

/-- `registry.register(ins)`, with the two remote-call outcomes passed in
explicitly: `dbSet` is the outcome of the heartbeat `Set` of the instance
record, `scan` the response of the `buildCache` rescan that follows a
successful write.  Mirrors the Go control flow: fail `AlreadyRegistered` when
`currentInstance` is already set; otherwise set `currentInstance`, get or
create the service, fail `AlreadyRegistered` when the identity is already in
its instance list; otherwise perform the remote write, propagating its error,
and on success rebuild the cache. -/
def registry.register (st : RegistryState) (ins : Instance) (dbSet : Option DbErr)
    (scan : Except DbErr (List (Option Instance))) : RegistryState × Option RegErr :=
  if st.currentInstance.isSome then (st, some .alreadyRegistered)
  else
    let st1 : RegistryState := { st with currentInstance := some ins }
    let (svc, st2) := registry.getOrCreateService st1 ins.ServiceName
    if svc.instances.any (fun i => i.Identity == ins.Identity) then
      (st2, some .alreadyRegistered)
    else
      match dbSet with
      | some e => (st2, some (.db e))
      | none => ({ st2 with cache := registry.buildCache st2.cache scan }, none)

/-- The delete branch of `registry.watchAndUpdateCache`: range over the cached
services; for each, try to remove the event's identity from its instance
list, then delete the service's map entry when its instance list is (or has
become) empty; stop ranging once an instance was actually removed.  Returns
the new cache and the removed instance (nil when no service contained the
identity). -/
def registry.watchDeleteScan : List (Str × Service) → Str →
    List (Str × Service) × Option Instance
  | [], _ => ([], none)
  | (n, s) :: rest, id =>
    let (ins, s') := s.remove id
    let kept : List (Str × Service) := if s'.instances = [] then [] else [(n, s')]
    match ins with
    | some i => (kept ++ rest, some i)
    | none =>
      let (rest', r) := registry.watchDeleteScan rest id
      (kept ++ rest', r)

/-- The delete branch of `registry.watchAndUpdateCache` on a raw event key:
the identity scanned for is the event key with the registry prefix
trimmed. -/
def registry.applyDeleteEvent (st : RegistryState) (registryPfx eKey : Str) :
    RegistryState × Option Instance :=
  let (cache', ins) := registry.watchDeleteScan st.cache (goTrimPrefix registryPfx eKey)
  ({ st with cache := cache' }, ins)

/-- `registry.pushEvent`: clone the (possibly nil) instance once, then hand
the clone and the event type to every subscriber in chain order
(subscribers are modelled by identifiers; a delivery is the triple handed to
`go p.handler(ins, e)`).  The outer `Option` models termination: `none` is
the panic raised when `clone` dereferences a nil receiver. -/
def registry.pushEvent (evs : List Nat) (i : Option Instance) (e : EventType) :
    Option (List (Nat × Option Instance × EventType)) :=
  match Instance.cloneOnPtr i with
  | none => none
  | some ins => some (evs.map (fun h => (h, ins, e)))

instance {ε α : Type} [DecidableEq ε] [DecidableEq α] : DecidableEq (Except ε α) := fun x y =>
  match x, y with
  | .error a, .error b =>
    if h : a = b then .isTrue (by rw [h]) else .isFalse (fun hh => h (by injection hh))
  | .ok a, .ok b =>
    if h : a = b then .isTrue (by rw [h]) else .isFalse (fun hh => h (by injection hh))
  | .error _, .ok _ => .isFalse (fun hh => Except.noConfusion hh)
  | .ok _, .error _ => .isFalse (fun hh => Except.noConfusion hh)

/-! ### Concrete fixtures

A storage named `test` with prefix `/p/` and the default separator `/`, and
the trees that the repository's own storage test builds (`key3`, `key3/1`,
`key3/2`). -/

/-- The default separator `"/"`. -/
def sepSlash : Str := "/".data

/-- A concrete storage configuration with separator `/`. -/
def cfg0 : StorageConfig := ⟨sepSlash⟩

/-- A concrete root prefix `"/p/"`. -/
def sPfx0 : Str := "/p/".data

/-- The storage name `"test"` used by the repository's tests. -/
def sTest : Str := "test".data

/-- The concrete storage `test` rooted at `/p/storage/test/`. -/
def c0 : storage := { pfx := sPfx0, cfg := cfg0, name := sTest }

/-- The empty cache root for `c0` (as `buildCache` would name it). -/
def root0 : storageNode := .mk sTest .nil []

/-- The caller key `"key3"`. -/
def sKey3 : Str := "key3".data

/-- The caller key `"key3/1"`. -/
def sKey31 : Str := "key3/1".data

/-- The caller key `"key3/2"`. -/
def sKey32 : Str := "key3/2".data

/-- The caller key `"key3/"` (trailing separator). -/
def sKey3T : Str := "key3/".data

/-- The payload `"v3"`. -/
def sV3 : Str := "v3".data

/-- The payload `"v31"`. -/
def sV31 : Str := "v31".data

/-- The payload `"v32"`. -/
def sV32 : Str := "v32".data

/-- The cache entry written for `key3`. -/
def kv3 : KV := ⟨c0.buildStorageKey [sKey3], sV3⟩

/-- The cache entry written for `key3/1`. -/
def kv31 : KV := ⟨c0.buildStorageKey [sKey31], sV31⟩

/-- The cache entry written for `key3/2`. -/
def kv32 : KV := ⟨c0.buildStorageKey [sKey32], sV32⟩

/-- The local-update step of `cachedStorage.Set` in isolation (the tree after
a successful remote write). -/
def setLocal (c : storage) (t : storageNode) (key value : Str) : storageNode :=
  (cachedStorage.Set c t none key value).1

/-- The tree after writing `key3`, `key3/1` and `key3/2` through `Set`. -/
def tree0 : storageNode :=
  setLocal c0 (setLocal c0 (setLocal c0 root0 sKey3 sV3) sKey31 sV31) sKey32 sV32

/-- The tree after writing only `key3` through `Set`. -/
def tree1 : storageNode := setLocal c0 root0 sKey3 sV3

/-- `kv` is stored at the node `n` or anywhere strictly below it (through any
binding of a children map, with multiplicity through which binding it sits
under).  This is the specification-side notion of "the values at or below a
node" used to check `Get`'s depth-first collection. -/
inductive InSubtree : storageNode → KV → Prop where
  | here {n : storageNode} {kv : KV} : kv ∈ n.values → InSubtree n kv
  | inChild {n : storageNode} {p : Str × storageNode} {kv : KV} :
      p ∈ n.next.toList → InSubtree p.2 kv → InSubtree n kv

/-- Every segment of the path, read from `n` downwards, has a corresponding
child node.  `Get`'s descent succeeds exactly on such paths. -/
inductive PathResolves : storageNode → List Str → Prop where
  | nil {n : storageNode} : PathResolves n []
  | cons {n c : storageNode} {po : Str} {rest : List Str} :
      n.next.load po = some c → PathResolves c rest → PathResolves n (po :: rest)

/-- Does the cached instance list of `ins`'s target service already contain an
instance with `ins`'s identity? -/
def registryCacheHasIdentity (cache : List (Str × Service)) (ins : Instance) : Bool :=
  match svcLoad cache ins.ServiceName with
  | some svc => svc.instances.any (fun i => i.Identity == ins.Identity)
  | none => false

/-- Number of instances cached for a service name (0 when the service is not
cached). -/
def svcInstanceCount (cache : List (Str × Service)) (serviceName : Str) : Nat :=
  match svcLoad cache serviceName with
  | some svc => svc.instances.length
  | none => 0

/-! ### Concrete registry fixtures -/

/-- The service name `"svc"`. -/
def sSvc : Str := "svc".data

/-- A concrete instance of service `svc`. -/
def insA : Instance :=
  { Id := "i1".data, Host := "h1".data, HostName := "hn1".data, Port := 8000,
    ServiceName := sSvc, Meta := [] }

/-- The empty registry state (nothing registered, empty cache). -/
def st0 : RegistryState := { currentInstance := none, cache := [] }

/-- A concrete database error. -/
def e0 : DbErr := ⟨7⟩

/-- The service name `"zombie"` of a pre-existing empty service entry. -/
def sZombie : Str := "zombie".data

/-- The cached service `svc` holding only `insA`. -/
def svcA : Service := { Name := sSvc, instances := [insA] }

/-- A pre-existing empty service entry (such empty placeholders are created,
for example, by a `register` call whose remote write fails). -/
def svcZ : Service := { Name := sZombie, instances := [] }

/-- A registry cache holding service `svc` with the single instance `insA`,
followed by the pre-existing empty service entry `zombie`. -/
def cacheC : List (Str × Service) := [(sSvc, svcA), (sZombie, svcZ)]

/-- The caller key `"test123"`, which starts with the storage name `test`. -/
def sTest123 : Str := "test123".data

/-- A concrete storage built through `newStorage` (name `test`, prefix `/p/`,
separator `/`). -/
def c9 : storage := newStorage sPfx0 sTest cfg0

/-- The payload `"vx"`. -/
def sVx : Str := "vx".data

/-- A remote entry whose key ends with the separator (`/p/storage/test/key3/`),
as a prefix scan may return it. -/
def kvT : KV := ⟨c0.buildStorageKey [sKey3T], sVx⟩

/-- A tree built by `buildCache` from a scan containing a trailing-separator
key: `key3` then has a child named by the empty segment. -/
def treeB : storageNode := cachedStorage.buildCache c0 [kvT, kv31]

/-- The caller key `"k"`. -/
def sK : Str := "k".data

/-- The payload `"v"`. -/
def sV : Str := "v".data

/-- The caller key `"x"`. -/
def sX : Str := "x".data

/-- The tree after writing `key3/1` and then `key3` through `Set`: the node
for `key3` both holds a value and has a child. -/
def tree2 : storageNode := setLocal c0 (setLocal c0 root0 sKey31 sV31) sKey3 sV3

/-! ### Helper lemmas -/

/-- `clone` of a non-nil instance is the identical value. -/
theorem Instance.clone_eq (i : Instance) : i.clone = i := rfl

/-- `register` short-circuits when a local instance is already registered. -/
theorem register_of_isSome (st : RegistryState) (ins : Instance) (d : Option DbErr)
    (s : Except DbErr (List (Option Instance))) (h : st.currentInstance.isSome = true) :
    registry.register st ins d s = (st, some .alreadyRegistered) := by
  simp [registry.register, h]

/-- When nothing was registered yet, `register` always leaves
`currentInstance` set to the candidate instance, whatever else happens. -/
theorem register_currentInstance_of_none (st : RegistryState) (ins : Instance)
    (d : Option DbErr) (s : Except DbErr (List (Option Instance)))
    (h : st.currentInstance = none) :
    ((registry.register st ins d s).1).currentInstance = some ins := by
  simp only [registry.register, h, Option.isSome_none, Bool.false_eq_true, if_false,
    registry.getOrCreateService]
  cases hsvc : svcLoad st.cache ins.ServiceName <;>
    simp only [hsvc] <;> split <;> (try split) <;> rfl

/-- `register` returns `ErrAlreadyRegistered` exactly when a local instance is
already registered or the target service's cached list already holds the
identity. -/
theorem register_already_iff (st : RegistryState) (ins : Instance) (d : Option DbErr)
    (s : Except DbErr (List (Option Instance))) :
    (registry.register st ins d s).2 = some .alreadyRegistered ↔
      st.currentInstance.isSome = true ∨ registryCacheHasIdentity st.cache ins = true := by
  by_cases h : st.currentInstance.isSome = true
  · simp [register_of_isSome st ins d s h, h]
  · simp only [registry.register, h, if_false, registryCacheHasIdentity]
    cases hsvc : svcLoad st.cache ins.ServiceName with
    | none =>
      simp only [registry.getOrCreateService, hsvc]
      cases d <;> simp [h]
    | some svc =>
      simp only [registry.getOrCreateService, hsvc]
      by_cases hany : (svc.instances.any (fun i => i.Identity == ins.Identity)) = true
      · simp [hany, h]
      · simp only [hany]
        cases d <;> simp [h, hany]

/-- After any `register` call, a further `register` call (of any instance)
fails `AlreadyRegistered` and leaves the state untouched. -/
theorem register_twice (st : RegistryState) (ins ins2 : Instance) (d d' : Option DbErr)
    (s s' : Except DbErr (List (Option Instance))) :
    registry.register (registry.register st ins d s).1 ins2 d' s' =
      ((registry.register st ins d s).1, some .alreadyRegistered) := by
  by_cases h : st.currentInstance.isSome = true
  · rw [register_of_isSome st ins d s h]
    exact register_of_isSome st ins2 d' s' h
  · have h0 : st.currentInstance = none := by
      cases hc : st.currentInstance with
      | none => rfl
      | some v => exact absurd (by simp [hc]) h
    apply register_of_isSome
    rw [register_currentInstance_of_none st ins d s h0]
    rfl

/-! ### Claim theorems -/

/-- C4: `register(instance)` returns the `AlreadyRegistered` error if and only
if a local instance is already registered (`currentInstance` non-nil) or an
instance with the same identity already exists in the target service's cached
instance list; a second `register` call after any first one returns
`AlreadyRegistered` with the state (hence the service's cached instance
count) unchanged. -/
theorem C4_register_already_registered :
    ∀ (st : RegistryState) (ins ins2 : Instance) (d d' : Option DbErr)
      (s s' : Except DbErr (List (Option Instance))),
      ((registry.register st ins d s).2 = some .alreadyRegistered ↔
        st.currentInstance.isSome = true ∨ registryCacheHasIdentity st.cache ins = true) ∧
      registry.register (registry.register st ins d s).1 ins2 d' s' =
        ((registry.register st ins d s).1, some .alreadyRegistered) ∧
      svcInstanceCount
          (registry.register (registry.register st ins d s).1 ins2 d' s').1.cache
          ins.ServiceName =
        svcInstanceCount (registry.register st ins d s).1.cache ins.ServiceName := by
  intro st ins ins2 d d' s s'
  refine ⟨register_already_iff st ins d s, register_twice st ins ins2 d d' s s', ?_⟩
  rw [register_twice st ins ins2 d d' s s']

/-- C6: the reconciliation fan-out `pushEvent` delivers the cloned instance
and event type to every registered subscriber when the instance is non-nil,
but on a nil instance (a delete event whose key matched no cached instance)
`Instance.clone` dereferences its nil receiver and panics before any delivery
(`none` is the panic), contradicting the claim that the nil case is safe. -/
theorem C6_pushEvent_nil_panics :
    (∀ (evs : List Nat) (e : EventType),
        registry.pushEvent evs none e = none) ∧
    (∀ (evs : List Nat) (e : EventType) (i : Instance),
        registry.pushEvent evs (some i) e =
          some (evs.map (fun h => (h, some i, e)))) :=
  ⟨fun _ _ => rfl, fun evs e i => by
    simp [registry.pushEvent, Instance.cloneOnPtr, Instance.clone_eq]⟩

/-- C2: a watch-delivered create/update event applied through `handleEvent`
produces exactly the tree of `Set`'s local-update step (both run
`setCache(buildStorageKey(key), value)`).  A watch-delivered delete event
does NOT match `Delete`'s local pruning step: `handleEvent` hands `remove`
the already-built storage key, and `remove` then calls `buildStorageKey`
again on it when it reaches the value-removal branch, producing a
doubly-prefixed key that matches no stored entry.  Concretely, with `key3`
present, the watch delete leaves the entry in the tree while `Delete`'s local
step removes it. -/
theorem C2_handleEvent_vs_local_steps :
    (∀ (c : storage) (t : storageNode) (key value : Str),
        cachedStorage.handleEvent c t .create key value = setLocal c t key value ∧
        cachedStorage.handleEvent c t .update key value = setLocal c t key value) ∧
    dfsCollect (cachedStorage.handleEvent c0 tree1 .delete sKey3 []) = [kv3] ∧
    dfsCollect ((cachedStorage.Delete c0 tree1 none sKey3).1) = [] :=
  ⟨fun _ _ _ _ => ⟨rfl, rfl⟩, by decide, by decide⟩

/-- C5 counterexample: a `register` call whose remote write fails returns the
database error unmodified, yet the local state HAS been mutated (the claim
asserts no local state is mutated by a failed call): starting from the empty
state, after the failed call `currentInstance` is set and an empty `Service`
placeholder exists, so the state differs from the initial one. -/
theorem C5_counterexample_register_mutates_on_failure :
    (registry.register st0 insA (some e0) (.ok [])).2 = some (.db e0) ∧
    (registry.register st0 insA (some e0) (.ok [])).1 ≠ st0 :=
  ⟨by decide, by decide⟩

/-- C5 (amended): a failed remote write aborts storage `Set` and `Delete`
before any local-tree mutation and the error is returned unmodified; a failed
remote write in `register` also returns the error unmodified, but by then the
call has already set `currentInstance` to the candidate instance and has run
`getOrCreateService` (which stores an empty `Service` placeholder when the
service name was not yet cached), and neither mutation is rolled back. -/
theorem C5_amended_write_failure_atomicity :
    (∀ (c : storage) (t : storageNode) (e : DbErr) (key value : Str),
        cachedStorage.Set c t (some e) key value = (t, some e)) ∧
    (∀ (c : storage) (t : storageNode) (e : DbErr) (key : Str),
        cachedStorage.Delete c t (some e) key = (t, some e)) ∧
    (∀ (st : RegistryState) (ins : Instance) (e : DbErr)
        (s : Except DbErr (List (Option Instance))),
        st.currentInstance = none →
        registryCacheHasIdentity st.cache ins = false →
        registry.register st ins (some e) s =
          ((registry.getOrCreateService { st with currentInstance := some ins }
              ins.ServiceName).2,
           some (.db e))) := by
  refine ⟨fun _ _ _ _ _ => rfl, fun _ _ _ _ => rfl, ?_⟩
  intro st ins e s h0 hhas
  simp only [registry.register, h0, Option.isSome_none, Bool.false_eq_true, if_false]
  cases hsvc : svcLoad st.cache ins.ServiceName with
  | none =>
    simp [registry.getOrCreateService, hsvc]
  | some svc =>
    simp only [registryCacheHasIdentity, hsvc] at hhas
    simp [registry.getOrCreateService, hsvc, hhas]

/-- C5 witness: the amended statement instantiated at the empty state, the
concrete instance `insA` and the concrete failing write `e0`. -/
theorem C5_witness :
    st0.currentInstance = none ∧ registryCacheHasIdentity st0.cache insA = false ∧
    registry.register st0 insA (some e0) (.ok []) =
      ((registry.getOrCreateService { st0 with currentInstance := some insA }
          insA.ServiceName).2,
       some (.db e0)) :=
  ⟨rfl, by decide,
    C5_amended_write_failure_atomicity.2.2 st0 insA e0 (.ok []) rfl (by decide)⟩

/-- C9 counterexample: with storage name `test`, the caller key `"test123"`
(which starts with the storage name) is written to the remote store verbatim:
the written key is not `buildStorageKey("test123")` and does not lie inside
the storage's rooted namespace `/p/storage/test/`. -/
theorem C9_counterexample_unprefixed_write :
    storage.setWrittenKey c9 sTest123 ≠ c9.buildStorageKey [sTest123] ∧
    goHasPrefix (c9.buildStorageKey []) (storage.setWrittenKey c9 sTest123) = false :=
  ⟨by decide, by decide⟩

/-- C9 (amended): `storage.Set` writes through under exactly
`<prefix>storage<sep><name><sep><key>` (the name separator-stripped) for
every caller key that does NOT start with the (stripped) storage name; a
caller key that does start with it is written verbatim, outside the rooted
namespace unless it happens to carry the full prefix itself. -/
theorem C9_amended_set_write_key :
    ∀ (pfx name key : Str) (cfg : StorageConfig),
      goHasPrefix (newStorage pfx name cfg).name key = false →
      storage.setWrittenKey (newStorage pfx name cfg) key =
        (newStorage pfx name cfg).buildStorageKey [key] ∧
      (newStorage pfx name cfg).buildStorageKey [key] =
        (newStorage pfx name cfg).buildStorageKey [] ++ key ∧
      (newStorage pfx name cfg).name = goRemoveAll cfg.Separator name := by
  intro pfx name key cfg h
  refine ⟨by simp [storage.setWrittenKey, h], ?_, rfl⟩
  by_cases hk : key = []
  · simp [storage.buildStorageKey, hk]
  · simp [storage.buildStorageKey, hk]

/-- C9 witness: the amended statement at prefix `/p/`, name `test` and the
caller key `k` (which does not start with `test`). -/
theorem C9_witness :
    goHasPrefix (newStorage sPfx0 sTest cfg0).name sK = false ∧
    storage.setWrittenKey (newStorage sPfx0 sTest cfg0) sK =
      (newStorage sPfx0 sTest cfg0).buildStorageKey [sK] :=
  ⟨by decide, (C9_amended_set_write_key sPfx0 sTest sK cfg0 (by decide)).1⟩

/-- C10: when the initial prefix scan of `newCachedStorage` fails the root
stays nil; a `Get` with no key then safely returns an empty result, but a
`Get` with any non-empty key dereferences the nil root (the `none` result is
the nil-pointer dereference panic), so keyed reads on a never-built cache are
not total. -/
theorem C10_nil_root_get :
    ∀ (c : storage) (k : Str) (e : DbErr),
      k ≠ [] →
      newCachedStorageRoot c (.error e) = none ∧
      cachedStorage.Get c none (some k) = none ∧
      cachedStorage.Get c none none = some (.ok []) := by
  intro c k e hk
  refine ⟨rfl, ?_, rfl⟩
  simp [cachedStorage.Get, hk]

/-- C10 witness: the statement at the concrete storage `c0`, key `x` and scan
error `e0`. -/
theorem C10_witness :
    sX ≠ [] ∧ cachedStorage.Get c0 none (some sX) = none :=
  ⟨by decide, (C10_nil_root_get c0 sX e0 (by decide)).2.1⟩

/-- A list holding no instance of identity `id` is returned unchanged by the
removal scan, with a nil removed-instance result. -/
theorem removeInstanceList_of_notMem (id : Str) (l : List Instance)
    (h : ∀ i ∈ l, i.Identity ≠ id) : removeInstanceList id l = (none, l) := by
  induction l with
  | nil => rfl
  | cons i rest ih =>
    simp only [removeInstanceList]
    rw [if_neg (h i (by simp))]
    rw [ih (fun j hj => h j (by simp [hj]))]

/-- `Service.remove` on a service holding no instance of the identity is the
identity on the service. -/
theorem Service.remove_of_notMem (s : Service) (id : Str)
    (h : ∀ i ∈ s.instances, i.Identity ≠ id) : s.remove id = (none, s) := by
  simp [Service.remove, removeInstanceList_of_notMem id s.instances h]

/-- One-step unfolding of the reconciliation scan (definitional). -/
theorem watchDeleteScan_cons (n : Str) (s : Service) (rest : List (Str × Service)) (id : Str) :
    registry.watchDeleteScan ((n, s) :: rest) id =
      (match (s.remove id).1 with
       | some i =>
         ((if (s.remove id).2.instances = [] then [] else [(n, (s.remove id).2)]) ++ rest, some i)
       | none =>
         ((if (s.remove id).2.instances = [] then [] else [(n, (s.remove id).2)]) ++
            (registry.watchDeleteScan rest id).1,
          (registry.watchDeleteScan rest id).2)) := rfl

/-- C7 counterexample: a reconciliation step that removes the last remaining
instance of service `svc` prunes `svc`, yet the pre-existing EMPTY service
entry `zombie` sitting after the stopping point survives in the cache — so
"no service with an empty instance list survives a reconciliation step" is
false as stated. -/
theorem C7_counterexample_empty_service_survives :
    (registry.watchDeleteScan cacheC insA.Identity).2 = some insA ∧
    (registry.watchDeleteScan cacheC insA.Identity).1 = [(sZombie, svcZ)] ∧
    svcZ.instances = [] :=
  ⟨by decide, by decide, by decide⟩

/-- C7 (amended): whenever a watch-delivered delete event removes the last
remaining instance of a cached service (the identity occurring in no other
cached service, service names being unique), that service's entry is gone
from the resulting cache, hence from `GetServices`; however, a pre-existing
service with an empty instance list survives when the scan stops (at the
removal site) before visiting it. -/
theorem C7_amended_empty_service_pruning :
    ∀ (cache : List (Str × Service)) (id n : Str) (s : Service),
      (n, s) ∈ cache →
      (∀ p ∈ cache, p.1 ≠ n → ∀ i ∈ p.2.instances, i.Identity ≠ id) →
      ((s.remove id).1).isSome = true →
      ((s.remove id).2).instances = [] →
      (cache.map Prod.fst).Nodup →
      ∀ p ∈ (registry.watchDeleteScan cache id).1, p.1 ≠ n := by
  intro cache id n s
  induction cache with
  | nil => intro hmem; cases hmem
  | cons hd rest ih =>
    obtain ⟨m, t⟩ := hd
    intro hmem hothers hsome hempty hnd
    have hnd1 : m ∉ rest.map Prod.fst := (List.nodup_cons.mp hnd).1
    have hnd2 : (rest.map Prod.fst).Nodup := (List.nodup_cons.mp hnd).2
    rcases List.mem_cons.mp hmem with heq | htail
    · injection heq with hm ht
      subst hm; subst ht
      obtain ⟨i, hi⟩ := Option.isSome_iff_exists.mp hsome
      rw [watchDeleteScan_cons, hi]
      simp only [if_pos hempty, List.nil_append]
      intro p hp hpn
      exact hnd1 (hpn ▸ List.mem_map_of_mem Prod.fst hp)
    · have hmn : m ≠ n := by
        intro hh
        exact hnd1 (hh ▸ List.mem_map_of_mem Prod.fst htail)
      have ht : t.remove id = (none, t) :=
        Service.remove_of_notMem t id (hothers (m, t) (List.mem_cons_self _ _) hmn)
      rw [watchDeleteScan_cons, ht]
      intro p hp
      rcases List.mem_append.mp hp with hk | hr
      · have hpm : p = (m, t) := by
          rcases Decidable.em (t.instances = []) with he | he
          · simp [he] at hk
          · simp [he] at hk; exact hk
        rw [hpm]
        exact hmn
      · exact ih htail (fun q hq hqn => hothers q (List.mem_cons_of_mem _ hq) hqn)
          hsome hempty hnd2 p hr

/-- C7 witness: the amended statement at the concrete cache holding `svc =
[insA]`, deleting `insA`'s identity: `svc` is pruned from the cache. -/
theorem C7_witness :
    ((sSvc, svcA) ∈ cacheC ∧
     (∀ p ∈ cacheC, p.1 ≠ sSvc → ∀ i ∈ p.2.instances, i.Identity ≠ insA.Identity) ∧
     ((svcA.remove insA.Identity).1).isSome = true ∧
     ((svcA.remove insA.Identity).2).instances = [] ∧
     (cacheC.map Prod.fst).Nodup) ∧
    ∀ p ∈ (registry.watchDeleteScan cacheC insA.Identity).1, p.1 ≠ sSvc :=
  ⟨⟨by decide, by decide, by decide, by decide, by decide⟩,
    C7_amended_empty_service_pruning cacheC insA.Identity sSvc svcA
      (by decide) (by decide) (by decide) (by decide) (by decide)⟩

@[simp] theorem storageNode.name_mk (n : Str) (m : NodeMap) (v : List KV) :
    (storageNode.mk n m v).name = n := rfl

@[simp] theorem storageNode.next_mk (n : Str) (m : NodeMap) (v : List KV) :
    (storageNode.mk n m v).next = m := rfl

@[simp] theorem storageNode.values_mk (n : Str) (m : NodeMap) (v : List KV) :
    (storageNode.mk n m v).values = v := rfl

@[simp] theorem stripValues_mk (n : Str) (m : NodeMap) (v : List KV) :
    stripValues (.mk n m v) = .mk n (stripValuesMap m) [] := rfl

@[simp] theorem stripValuesMap_nil : stripValuesMap .nil = .nil := rfl

@[simp] theorem stripValuesMap_cons (k : Str) (c : storageNode) (rest : NodeMap) :
    stripValuesMap (.cons k c rest) = .cons k (stripValues c) (stripValuesMap rest) := rfl

@[simp] theorem dfsCollect_mk (n : Str) (m : NodeMap) (v : List KV) :
    dfsCollect (.mk n m v) = v ++ dfsCollectMap m := rfl

@[simp] theorem dfsCollectMap_nil : dfsCollectMap .nil = [] := rfl

@[simp] theorem dfsCollectMap_cons (k : Str) (c : storageNode) (rest : NodeMap) :
    dfsCollectMap (.cons k c rest) = dfsCollect c ++ dfsCollectMap rest := rfl

/-- `removeValue` never touches a node's name or children. -/
theorem stripValues_removeValue (n : storageNode) (k : Str) :
    stripValues (n.removeValue k) = stripValues n := by
  cases n; rfl

/-- `mapAt` with a shape-preserving function preserves the map's shape. -/
theorem stripValuesMap_mapAt (m : NodeMap) (k : Str) (f : storageNode → storageNode)
    (hf : ∀ c, stripValues (f c) = stripValues c) :
    stripValuesMap (m.mapAt k f) = stripValuesMap m := by
  induction m using NodeMap.rec (motive_1 := fun _ => True) with
  | mk _ _ _ => trivial
  | nil => rfl
  | cons key c rest _ ih =>
    simp only [NodeMap.mapAt]
    by_cases h : key = k
    · simp [h, hf]
    · simp [h, ih]

/-- The pruning walk of a non-trailing-separator delete never changes the
tree's shape: it only ever rewrites value lists. -/
theorem stripValues_removeWalk (mid : List Str) (t : storageNode) (last rmKey : Str) :
    stripValues (removeWalk t mid last false rmKey) = stripValues t := by
  induction mid generalizing t with
  | nil =>
    cases t with
    | mk nm nx vs =>
      simp only [removeWalk, storageNode.next_mk]
      cases h : NodeMap.load nx last with
      | some c =>
        simp [h, stripValuesMap_mapAt _ _ _ (fun c => stripValues_removeValue c rmKey)]
      | none =>
        simp [h, storageNode.removeValue]
  | cons po rest ih =>
    cases t with
    | mk nm nx vs =>
      simp only [removeWalk, storageNode.next_mk]
      by_cases hpo : po = []
      · simp only [if_pos hpo]
        exact ih _
      · simp only [if_neg hpo]
        cases h : NodeMap.load nx po with
        | some c =>
          simp [h, stripValuesMap_mapAt _ _ _ (fun c => ih c)]
        | none => simp [h]

/-- C1 counterexample: on the tree built by writing `key3`, `key3/1`,
`key3/2`, deleting `key3/` (trailing separator) does NOT remove the `key3`
child subtree - the tree is unchanged (the final path segment of a
trailing-separator key is the empty segment, which names no child here, so
the code falls back to value removal with a doubly-built key and removes
nothing): `key3/1`'s entry is still present, contradicting the claimed
subtree drop. -/
theorem C1_counterexample_trailing_delete :
    dfsCollect (cachedStorage.remove c0 tree0 sKey3T) = [kv3, kv31, kv32] ∧
    kv31 ∈ dfsCollect (cachedStorage.remove c0 tree0 sKey3T) :=
  ⟨by decide, by decide⟩

/-- C1 (amended): deleting a key without a trailing separator removes exactly
the single matching value entry and never alters the tree's node structure
(every child subtree stays): concretely, deleting `key3/1` from the
`key3`/`key3/1`/`key3/2` tree leaves `key3` and `key3/2`, and deleting `key3`
leaves `key3/1` and `key3/2`; in general a non-trailing delete preserves the
tree's shape exactly.  Deleting a key WITH a trailing separator drops the
child subtree named by the key's final (empty) segment when such a child
exists - e.g. a tree whose prefix scan contained the key `.../key3/` has an
empty-named child under `key3`, and deleting `key3/` drops it - and
otherwise removes at most a single value entry, never a subtree. -/
theorem C1_amended_delete_semantics :
    dfsCollect (cachedStorage.remove c0 tree0 sKey31) = [kv3, kv32] ∧
    dfsCollect (cachedStorage.remove c0 tree0 sKey3) = [kv31, kv32] ∧
    dfsCollect treeB = [kvT, kv31] ∧
    dfsCollect (cachedStorage.remove c0 treeB sKey3T) = [kv31] ∧
    (∀ (c : storage) (t : storageNode) (key : Str),
      goHasSuffix c.cfg.Separator key = false →
      stripValues (cachedStorage.remove c t key) = stripValues t) := by
  refine ⟨by decide, by decide, by decide, by decide, ?_⟩
  intro c t key h
  simp only [cachedStorage.remove, h]
  exact stripValues_removeWalk _ t _ _

/-- C1 witness: the shape-preservation part of the amended statement at the
concrete non-trailing delete of `key3` from the three-entry tree. -/
theorem C1_witness :
    goHasSuffix c0.cfg.Separator sKey3 = false ∧
    stripValues (cachedStorage.remove c0 tree0 sKey3) = stripValues tree0 :=
  ⟨by decide, C1_amended_delete_semantics.2.2.2.2 c0 tree0 sKey3 (by decide)⟩

/-- `Get`'s descent loop fails exactly on paths with a missing segment. -/
theorem resolve_none_iff (segs : List Str) (t : storageNode) :
    resolve t segs = none ↔ ¬ PathResolves t segs := by
  induction segs generalizing t with
  | nil =>
    simp only [resolve]
    constructor
    · intro h; exact Option.noConfusion h
    · intro h; exact absurd PathResolves.nil h
  | cons po rest ih =>
    cases h : t.next.load po with
    | none =>
      simp only [resolve, h]
      constructor
      · intro _ hp
        cases hp with
        | cons hl _ => rw [h] at hl; exact Option.noConfusion hl
      · intro _; trivial
    | some c =>
      simp only [resolve, h]
      rw [ih c]
      constructor
      · intro hnc hp
        cases hp with
        | cons hl hr =>
          rw [h] at hl
          injection hl with hh
          subst hh
          exact hnc hr
      · intro hnp hc
        exact hnp (PathResolves.cons h hc)

/-- The depth-first collection of a node lists exactly the values stored at
or below it. -/
theorem mem_dfsCollect_iff (n : storageNode) (kv : KV) :
    kv ∈ dfsCollect n ↔ InSubtree n kv := by
  induction n using storageNode.rec
      (motive_2 := fun m => kv ∈ dfsCollectMap m ↔ ∃ p ∈ m.toList, InSubtree p.2 kv) with
  | mk nm nx vs ihm =>
    simp only [dfsCollect_mk, List.mem_append, ihm]
    constructor
    · rintro (hv | ⟨p, hp, hin⟩)
      · exact InSubtree.here (n := .mk nm nx vs) (by simpa using hv)
      · exact InSubtree.inChild (n := .mk nm nx vs) (p := p) (by simpa using hp) hin
    · intro hin
      cases hin with
      | here hv => exact Or.inl (by simpa using hv)
      | inChild hp hin => exact Or.inr ⟨_, by simpa using hp, hin⟩
  | nil =>
    constructor
    · intro h; exact absurd h (List.not_mem_nil kv)
    · rintro ⟨p, hp, _⟩; exact absurd hp (List.not_mem_nil p)
  | cons k c rest ihc ihr =>
    simp only [dfsCollectMap_cons, List.mem_append, ihc, ihr, NodeMap.toList]
    constructor
    · rintro (hc | ⟨p, hp, hin⟩)
      · exact ⟨(k, c), by simp, hc⟩
      · exact ⟨p, by simp [hp], hin⟩
    · rintro ⟨p, hp, hin⟩
      rcases List.mem_cons.mp hp with rfl | hp'
      · exact Or.inl hin
      · exact Or.inr ⟨p, hp', hin⟩

/-- C3: for every built tree and non-empty key, `Get` splits the key on the
separator and descends from the root; it returns `StorageKeyNotFound` exactly
when some segment of the path has no corresponding child, and otherwise
returns the depth-first collection of the resolved node, which holds exactly
the values stored at or below that node; concretely, after writing `key3`,
`key3/1` and `key3/2`, `Get("key3")` returns all three entries. -/
theorem C3_get_descends_and_collects :
    (∀ (c : storage) (root : storageNode) (k : Str),
      k ≠ [] →
      ((cachedStorage.Get c (some root) (some k) = some (.error .ErrStorageNotFound)) ↔
         ¬ PathResolves root (goSplit c.cfg.Separator k)) ∧
      (∀ n, resolve root (goSplit c.cfg.Separator k) = some n →
         cachedStorage.Get c (some root) (some k) = some (.ok (dfsCollect n)) ∧
         ∀ kv, kv ∈ dfsCollect n ↔ InSubtree n kv)) ∧
    cachedStorage.Get c0 (some tree0) (some sKey3) = some (.ok [kv3, kv31, kv32]) := by
  refine ⟨?_, by decide⟩
  intro c root k hk
  have hG : cachedStorage.Get c (some root) (some k) =
      (match resolve root (goSplit c.cfg.Separator k) with
       | none => some (.error .ErrStorageNotFound)
       | some n => some (.ok (dfsCollect n))) := by
    simp [cachedStorage.Get, hk]
  cases hres : resolve root (goSplit c.cfg.Separator k) with
  | none =>
    rw [hG, hres]
    refine ⟨?_, ?_⟩
    · simp [(resolve_none_iff _ root).mp hres]
    · intro n hn; exact Option.noConfusion hn
  | some n0 =>
    rw [hG, hres]
    have hp : PathResolves root (goSplit c.cfg.Separator k) := by
      by_contra hnp
      have hcon := (resolve_none_iff (goSplit c.cfg.Separator k) root).mpr hnp
      rw [hres] at hcon
      exact Option.noConfusion hcon
    refine ⟨by simp [hp], ?_⟩
    intro n hn
    injection hn with hh
    subst hh
    exact ⟨rfl, fun kv => mem_dfsCollect_iff n0 kv⟩

/-- C3 witness: the statement at the concrete storage `c0`, the three-entry
tree and the key `key3`. -/
theorem C3_witness :
    sKey3 ≠ [] ∧
    ((cachedStorage.Get c0 (some tree0) (some sKey3) =
        some (.error .ErrStorageNotFound)) ↔
      ¬ PathResolves tree0 (goSplit c0.cfg.Separator sKey3)) :=
  ⟨by decide, (C3_get_descends_and_collects.1 c0 tree0 sKey3 (by decide)).1⟩

@[simp] theorem resolve_nil (t : storageNode) : resolve t [] = some t := rfl

/-- One-step unfolding of the descent loop (definitional). -/
theorem resolve_cons (t : storageNode) (po : Str) (rest : List Str) :
    resolve t (po :: rest) =
      (match t.next.load po with
       | none => none
       | some c => resolve c rest) := rfl

/-- `Store` followed by `Load` of the same key yields the stored node. -/
theorem NodeMap.load_store_self (m : NodeMap) (k : Str) (c : storageNode) :
    (m.store k c).load k = some c := by
  induction m using NodeMap.rec (motive_1 := fun _ => True) with
  | mk _ _ _ => trivial
  | nil => simp [NodeMap.store, NodeMap.load]
  | cons key c0 rest _ ih =>
    by_cases h : key = k
    · simp [NodeMap.store, NodeMap.load, h]
    · simp [NodeMap.store, NodeMap.load, h, ih]

/-- The upserted entry is present after `updateOrInsertValue`. -/
theorem mem_updateOrInsertValues (vs : List KV) (key v : Str) :
    (⟨key, v⟩ : KV) ∈ updateOrInsertValues vs key v := by
  induction vs with
  | nil => simp [updateOrInsertValues]
  | cons kv rest ih =>
    by_cases h : kv.Key = key
    · simp [updateOrInsertValues, h]
    · simp only [updateOrInsertValues, if_neg h]
      exact List.mem_cons_of_mem kv ih

/-- Anything collected from a stored child is collected from the map. -/
theorem mem_dfsCollectMap_store (m : NodeMap) (k : Str) (c : storageNode) (kv : KV)
    (h : kv ∈ dfsCollect c) : kv ∈ dfsCollectMap (m.store k c) := by
  induction m using NodeMap.rec (motive_1 := fun _ => True) with
  | mk _ _ _ => trivial
  | nil => simp [NodeMap.store, h]
  | cons key c0 rest _ ih =>
    by_cases hk : key = k
    · simp [NodeMap.store, hk, h]
    · simp only [NodeMap.store, if_neg hk, dfsCollectMap_cons, List.mem_append]
      exact Or.inr ih

/-- The written entry is always somewhere in the tree after `setCache`'s
walk. -/
theorem mem_dfsCollect_setCachePath (segs : List Str) (t : storageNode) (key v : Str) :
    (⟨key, v⟩ : KV) ∈ dfsCollect (setCachePath t segs key v) := by
  induction segs generalizing t with
  | nil =>
    cases t with
    | mk nm nx vs =>
      simp only [setCachePath, storageNode.updateOrInsertValue, storageNode.name_mk,
        storageNode.next_mk, storageNode.values_mk, dfsCollect_mk, List.mem_append]
      exact Or.inl (mem_updateOrInsertValues vs key v)
  | cons po rest ih =>
    by_cases hpo : po = []
    · simpa [setCachePath, hpo] using ih t
    · cases t with
      | mk nm nx vs =>
        simp only [setCachePath, if_neg hpo, storageNode.next_mk]
        cases h : NodeMap.load nx po with
        | some child =>
          simp only [dfsCollect_mk, List.mem_append]
          exact Or.inr (mem_dfsCollectMap_store nx po _ _ (ih child))
        | none =>
          simp only [dfsCollect_mk, List.mem_append]
          exact Or.inr (mem_dfsCollectMap_store nx po _ _ (ih _))

/-- `setCache`'s walk over a fresh node builds a value-free spine whose end
holds exactly the written entry. -/
theorem setCachePath_fresh (segs : List Str) (key v : Str) (h : [] ∉ segs) :
    ∀ nm, ∃ n, resolve (setCachePath (.mk nm .nil []) segs key v) segs = some n ∧
      dfsCollect n = [⟨key, v⟩] := by
  induction segs with
  | nil =>
    intro nm
    exact ⟨.mk nm .nil [⟨key, v⟩], rfl, rfl⟩
  | cons po rest ih =>
    intro nm
    have hpo : po ≠ [] := fun hh => h (by simp [hh])
    obtain ⟨n, hres, hdfs⟩ := ih (fun hh => h (List.mem_cons_of_mem _ hh)) po
    refine ⟨n, ?_, hdfs⟩
    have hstep : setCachePath (.mk nm .nil []) (po :: rest) key v =
        .mk nm (NodeMap.store .nil po (setCachePath (.mk po .nil []) rest key v)) [] := by
      simp [setCachePath, if_neg hpo, NodeMap.load]
    rw [hstep, resolve_cons]
    simp only [storageNode.next_mk, NodeMap.load_store_self]
    exact hres

/-- When the written key's path resolved to nothing beforehand, `setCache`
creates it and the resolved terminal node holds exactly the written entry. -/
theorem setCachePath_resolve_none (segs : List Str) (key v : Str)
    (hsegs : [] ∉ segs) :
    ∀ t, resolve t segs = none →
    ∃ n, resolve (setCachePath t segs key v) segs = some n ∧
      dfsCollect n = [⟨key, v⟩] := by
  induction segs with
  | nil =>
    intro t hres
    exact absurd hres (by simp)
  | cons po rest ih =>
    intro t hres
    have hpo : po ≠ [] := fun hh => hsegs (by simp [hh])
    have hrest : [] ∉ rest := fun hh => hsegs (List.mem_cons_of_mem _ hh)
    cases t with
    | mk nm nx vs =>
      rw [resolve_cons] at hres
      simp only [storageNode.next_mk] at hres
      cases h : NodeMap.load nx po with
      | some c =>
        rw [h] at hres
        simp only [] at hres
        obtain ⟨n, hres', hdfs⟩ := ih hrest c hres
        refine ⟨n, ?_, hdfs⟩
        have hstep : setCachePath (.mk nm nx vs) (po :: rest) key v =
            .mk nm (nx.store po (setCachePath c rest key v)) vs := by
          simp [setCachePath, if_neg hpo, h]
        rw [hstep, resolve_cons]
        simp only [storageNode.next_mk, NodeMap.load_store_self]
        exact hres'
      | none =>
        obtain ⟨n, hres', hdfs⟩ := setCachePath_fresh rest key v hrest po
        refine ⟨n, ?_, hdfs⟩
        have hstep : setCachePath (.mk nm nx vs) (po :: rest) key v =
            .mk nm (nx.store po (setCachePath (.mk po .nil []) rest key v)) vs := by
          simp [setCachePath, if_neg hpo, h]
        rw [hstep, resolve_cons]
        simp only [storageNode.next_mk, NodeMap.load_store_self]
        exact hres'

/-- `TrimPrefix` undoes prepending. -/
theorem goTrimPrefix_append (p s : Str) : goTrimPrefix p (p ++ s) = s := by
  have h1 : p.isPrefixOf (p ++ s) = true := by
    rw [List.isPrefixOf_iff_prefix]
    exact List.prefix_append p s
  simp [goTrimPrefix, h1, List.drop_left]

/-- `buildStorageKey` of a key is the storage's root prefix followed by the
key (also for the empty key). -/
theorem buildStorageKey_key (s : storage) (k : Str) :
    s.buildStorageKey [k] = s.buildStorageKey [] ++ k := by
  by_cases hk : k = []
  · simp [storage.buildStorageKey, hk]
  · simp [storage.buildStorageKey, hk]

/-- Splitting the empty string yields the singleton empty segment. -/
theorem goSplit_empty_subject (sep : Str) : goSplit sep [] = [[]] := by
  cases sep <;> rfl

/-- `Set`'s local-update step walks exactly the split of the caller's key
(the root prefix that `setCache` trims is the prefix `buildStorageKey`
prepended). -/
theorem setLocal_eq (c : storage) (t : storageNode) (key v : Str) :
    setLocal c t key v =
      setCachePath t (goSplit c.cfg.Separator key) (c.buildStorageKey [key]) v := by
  show cachedStorage.setCache c t (c.buildStorageKey [key]) v = _
  rw [cachedStorage.setCache, buildStorageKey_key, goTrimPrefix_append]

/-- C8 counterexample: after writing `key3/1` and then `key3`, an immediate
`Get("key3")` returns TWO entries (the leaf value plus the child's value),
not "exactly one KV", because `Get` collects the whole subtree below the
resolved node. -/
theorem C8_counterexample_get_returns_subtree :
    cachedStorage.Get c0 (some tree2) (some sKey3) = some (.ok [kv3, kv31]) :=
  by decide

/-- C8 (amended): for a key whose split has no empty segments and whose path
is not yet present in the tree, an immediate `Get` on that exact key after
`Set` returns exactly one KV carrying the written value (under the full
storage key); and unconditionally, after any `Set` the written entry is
contained in the result of a `Get` with no key (which dumps the whole
tree). -/
theorem C8_amended_set_get_roundtrip :
    (∀ (c : storage) (t : storageNode) (key v : Str),
      [] ∉ goSplit c.cfg.Separator key →
      resolve t (goSplit c.cfg.Separator key) = none →
      cachedStorage.Get c (some (setLocal c t key v)) (some key) =
        some (.ok [⟨c.buildStorageKey [key], v⟩])) ∧
    (∀ (c : storage) (t : storageNode) (key v : Str),
      (⟨c.buildStorageKey [key], v⟩ : KV) ∈ dfsCollect (setLocal c t key v) ∧
      cachedStorage.Get c (some (setLocal c t key v)) none =
        some (.ok (dfsCollect (setLocal c t key v)))) := by
  constructor
  · intro c t key v hsegs hres
    have hk : key ≠ [] := by
      rintro rfl
      rw [goSplit_empty_subject] at hsegs
      exact hsegs (by simp)
    obtain ⟨n, hres', hdfs⟩ :=
      setCachePath_resolve_none (goSplit c.cfg.Separator key)
        (c.buildStorageKey [key]) v hsegs t hres
    rw [setLocal_eq]
    simp [cachedStorage.Get, hk, hres', hdfs]
  · intro c t key v
    constructor
    · rw [setLocal_eq]
      exact mem_dfsCollect_setCachePath _ t _ v
    · rfl

/-- C8 witness: the amended statement at the empty root and the fresh key
`k`: the round-trip returns exactly the one written entry. -/
theorem C8_witness :
    [] ∉ goSplit c0.cfg.Separator sK ∧
    resolve root0 (goSplit c0.cfg.Separator sK) = none ∧
    cachedStorage.Get c0 (some (setLocal c0 root0 sK sV)) (some sK) =
      some (.ok [⟨c0.buildStorageKey [sK], sV⟩]) :=
  ⟨by decide, rfl,
    C8_amended_set_get_roundtrip.1 c0 root0 sK sV (by decide) rfl⟩
